import Mathlib

/-!
Verification of the cb command-output clipboard manager (main.go).

Text is modelled as List Char.  The Go functions stripANSI, applyLineFilters,
limitLines, writeToFile, detectClipboardTool, copyToClipboard, executeCommand
and the orchestration in main are translated function by function.  External
effects are modelled explicitly: the child process is an input value recording
what it wrote to each stream and whether cmd.Run returned an error; the file
system and the clipboard helper are modelled by recording the requested
effects.  The merged stdout/stderr buffer of capture-stderr mode is serialised
as the stdout bytes followed by the stderr bytes.
-/

/-- Text is a list of characters (Go strings, byte-for-byte for our purposes). -/
abbrev Str := List Char

/-- Membership of the regex character class [0-9;] used in the ANSI pattern. -/
def isDigitSemi (c : Char) : Bool :=
  (48 ≤ c.toNat && c.toNat ≤ 57) || c.toNat = 59

/-- Membership of the regex character class [a-zA-Z] used in the ANSI pattern. -/
def isAsciiLetter (c : Char) : Bool :=
  (65 ≤ c.toNat && c.toNat ≤ 90) || (97 ≤ c.toNat && c.toNat ≤ 122)

/-- Attempt to match the remainder of the ANSI pattern after the initial ESC:
a left bracket, then a maximal run of [0-9;], then one ASCII letter.  Returns
the text after the match.  The character classes [0-9;] and [a-zA-Z] are
disjoint, so the greedy run of the Go regex \x1b\[[0-9;]*[a-zA-Z] matches at a
position exactly when this function succeeds. -/
def matchAnsiTail (cs : Str) : Option Str :=
  match cs with
  | a :: r1 =>
    if a = '[' then
      match r1.dropWhile isDigitSemi with
      | l :: r2 => if isAsciiLetter l then some r2 else none
      | [] => none
    else none
  | [] => none

/-- A successful match consumes at least the bracket, so the remainder is
strictly shorter.  Needed for the termination of stripANSI. -/
def matchAnsiTail_some_length : ∀ {cs rest : Str},
    matchAnsiTail cs = some rest → rest.length < cs.length := by
  intro cs rest h
  unfold matchAnsiTail at h
  split at h
  case h_2 => exact absurd h (by simp)
  case h_1 a r1 =>
    split at h
    case isFalse => exact absurd h (by simp)
    case isTrue =>
      split at h
      case h_2 => exact absurd h (by simp)
      case h_1 l r2 hd =>
        split at h
        case isFalse => exact absurd h (by simp)
        case isTrue =>
          cases h
          have hle : (l :: rest).length ≤ r1.length := by
            rw [← hd]
            exact (List.dropWhile_suffix isDigitSemi).length_le
          simp only [List.length_cons] at hle ⊢
          omega

/-- Go stripANSI: remove every match of the regex \x1b\[[0-9;]*[a-zA-Z],
scanning left to right, skipping over each match without rescanning. -/
def stripANSI : Str → Str
  | [] => []
  | c :: cs =>
    if c = '\x1b' then
      match h : matchAnsiTail cs with
      | some rest => stripANSI rest
      | none => c :: stripANSI cs
    else c :: stripANSI cs
termination_by s => s.length
decreasing_by
  · have := matchAnsiTail_some_length h
    simp only [List.length_cons]
    omega
  · simp only [List.length_cons]
    omega
  · simp only [List.length_cons]
    omega

/-- Decidable check that a text contains no match of the ANSI pattern. -/
def ansiFree : Str → Bool
  | [] => true
  | c :: cs => (if c = '\x1b' then (matchAnsiTail cs).isNone else true) && ansiFree cs

/-- The strip stage of main: stripping is skipped entirely in raw mode. -/
def stripStage (raw : Bool) (output : Str) : Str :=
  if raw then output else stripANSI output

/-- Go unicode.IsSpace, the class trimmed by strings.TrimSpace: ASCII
whitespace, NEL, NBSP and the Unicode space separators. -/
def isGoSpace (c : Char) : Bool :=
  (9 ≤ c.toNat && c.toNat ≤ 13) || c.toNat = 32 || c.toNat = 0x85 || c.toNat = 0xA0 ||
  c.toNat = 0x1680 || (0x2000 ≤ c.toNat && c.toNat ≤ 0x200A) ||
  c.toNat = 0x2028 || c.toNat = 0x2029 || c.toNat = 0x202F || c.toNat = 0x205F ||
  c.toNat = 0x3000

/-- Go strings.TrimSpace: drop leading whitespace, then trailing whitespace. -/
def trimSpace (s : Str) : Str :=
  ((s.dropWhile isGoSpace).reverse.dropWhile isGoSpace).reverse

/-- One step of splitNl: extend the split of the tail by the head character. -/
def splitNlCons (c : Char) (r : List Str) : List Str :=
  match r with
  | [] => [[]]
  | l :: ls => if c = '\n' then [] :: l :: ls else (c :: l) :: ls

/-- Go strings.Split(s, newline): the list of newline-separated segments.
Splitting the empty string yields one empty segment. -/
def splitNl : Str → List Str
  | [] => [[]]
  | c :: cs => splitNlCons c (splitNl cs)

/-- Go strings.Join(l, newline). -/
def joinNl : List Str → Str
  | [] => []
  | [l] => l
  | l :: ls => l ++ '\n' :: joinNl ls

/-- Go applyLineFilters: head filter then tail filter on the newline-split
lines, each applied only when its count is positive and below the current
line count; when neither count is positive the text is returned untouched. -/
def applyLineFilters (output : Str) (headLines tailLines : Int) : Str :=
  if headLines ≤ 0 ∧ tailLines ≤ 0 then output
  else
    let lines := splitNl output
    let lines1 :=
      if 0 < headLines ∧ headLines < (lines.length : Int) then
        lines.take headLines.toNat
      else lines
    let lines2 :=
      if 0 < tailLines ∧ tailLines < (lines1.length : Int) then
        lines1.drop (lines1.length - tailLines.toNat)
      else lines1
    joinNl lines2

/-- Go limitLines: truncate the displayed text to its first maxLines lines;
a non-positive limit or a text with no more lines than the limit is returned
untouched. -/
def limitLines (output : Str) (maxLines : Int) : Str :=
  if maxLines ≤ 0 then output
  else
    let lines := splitNl output
    if (lines.length : Int) ≤ maxLines then output
    else joinNl (lines.take maxLines.toNat)

/-- Spec-side manual head slicing from C3: keep the first H elements exactly
when 0 < H < length, otherwise a no-op. -/
def headSlice (H : Int) (L : List Str) : List Str :=
  if 0 < H ∧ H < (L.length : Int) then L.take H.toNat else L

/-- Spec-side manual tail slicing from C3: keep the last T elements exactly
when 0 < T < length, otherwise a no-op. -/
def tailSlice (T : Int) (L : List Str) : List Str :=
  if 0 < T ∧ T < (L.length : Int) then L.drop (L.length - T.toNat) else L

/-- The terminal-output decision at the end of main: fully quiet prints
nothing; otherwise the text (display-limited when a positive quiet line count
was given) is printed, with a newline appended when it is nonempty and does
not already end in one; an empty text prints nothing. -/
def terminalOutput (quiet : Bool) (quietLines : Int) (output : Str) : Str :=
  if quiet = true ∧ quietLines = 0 then []
  else
    let printOutput := if 0 < quietLines then limitLines output quietLines else output
    if printOutput = [] then []
    else if printOutput.getLast? = some '\n' then printOutput
    else printOutput ++ ['\n']

/-- Why cmd.Run returned an error: the executable could not be found or
spawned at all, or the child ran and exited non-zero. -/
inductive RunErr where
  | spawnError
  | exitNonZero (code : Nat)
deriving DecidableEq

/-- The observable behaviour of one child process: what it wrote to each
stream and whether cmd.Run returned an error. -/
structure ChildBehavior where
  stdoutData : Str
  stderrData : Str
  runError : Option RunErr
deriving DecidableEq

/-- The error value produced by executeCommand in non-merged mode: the wait
error alone, or the wait error together with the captured stderr text. -/
inductive ExecError where
  | bare (e : RunErr)
  | withStderr (e : RunErr) (stderrText : Str)
deriving DecidableEq

/-- Go executeCommand: capture the selected streams and map the cmd.Run
error.  In capture-stderr mode stderr shares the stdout buffer and any error
is swallowed; otherwise an error is returned, decorated with the captured
stderr text when there is any, while the captured stdout is still returned. -/
def executeCommand (captureStderr : Bool) (child : ChildBehavior) :
    Str × Option ExecError :=
  let stdoutBuf :=
    if captureStderr then child.stdoutData ++ child.stderrData else child.stdoutData
  match child.runError with
  | none => (stdoutBuf, none)
  | some e =>
    if captureStderr then (stdoutBuf, none)
    else if child.stderrData ≠ [] then
      (stdoutBuf, some (ExecError.withStderr e child.stderrData))
    else (stdoutBuf, some (ExecError.bare e))

/-- The Config structure of main.go (the parsed flags). -/
structure Config where
  headLines : Int
  tailLines : Int
  quietLines : Int
  quiet : Bool
  file : String
  clear : Bool
  stderr : Bool
  append : Bool
  noClipboard : Bool
  verbose : Bool
  noTemp : Bool
  raw : Bool
  delay : Int
  trim : Bool
  help : Bool
  showVersion : Bool
deriving DecidableEq

/-- The default configuration: every flag off, every count zero. -/
def baseConfig : Config :=
  { headLines := 0, tailLines := 0, quietLines := 0, quiet := false, file := "",
    clear := false, stderr := false, append := false, noClipboard := false,
    verbose := false, noTemp := false, raw := false, delay := 0, trim := false,
    help := false, showVersion := false }

/-- The transform chain of main: ANSI strip (unless raw), then optional trim,
then head/tail filtering.  This text is what is persisted and published. -/
def transformChain (cfg : Config) (captured : Str) : Str :=
  applyLineFilters
    (if cfg.trim then trimSpace (stripStage cfg.raw captured)
     else stripStage cfg.raw captured)
    cfg.headLines cfg.tailLines

/-- The space-joined invocation string used in the record header. -/
def cmdString (args : List String) : Str :=
  (String.intercalate " " args).toList

/-- The record header of main: a bracketed timestamp and quoted invocation,
ending in a colon and a newline. -/
def recordHeader (timestamp cmdStr : Str) : Str :=
  '[' :: (timestamp ++ ' ' :: '"' :: (cmdStr ++ '"' :: ']' :: ':' :: '\n' :: []))

/-- The externally observable effects of one run of main: the exit code, the
file write performed (path and bytes), the text streamed to the clipboard
tool, and the text printed to stdout by the final print step. -/
structure RunEffects where
  exitCode : Nat
  fileWritten : Option (String × Str)
  clipboardPublished : Option Str
  terminal : Str
deriving DecidableEq

/-- The orchestration of main on the success path of the external effects:
usage check, command execution (fatal on an executor error, before any file
or clipboard step), transform chain, record construction, file persistence
unless disabled, clipboard publication unless disabled, and the final
terminal-output decision.  The delay, the verbose diagnostics and the
clear-before-copy step do not affect the modelled effects. -/
def runMain (cfg : Config) (args : List String) (child : ChildBehavior)
    (timestamp : Str) : RunEffects :=
  if args = [] then
    { exitCode := 1, fileWritten := none, clipboardPublished := none, terminal := [] }
  else
    match executeCommand cfg.stderr child with
    | (_, some _) =>
      { exitCode := 1, fileWritten := none, clipboardPublished := none, terminal := [] }
    | (captured, none) =>
      let output := transformChain cfg captured
      let fullOutput := recordHeader timestamp (cmdString args) ++ output ++ ['\n']
      { exitCode := 0
        fileWritten :=
          if cfg.noTemp then none
          else some ((if cfg.file = "" then "/tmp/cb.txt" else cfg.file), fullOutput)
        clipboardPublished := if cfg.noClipboard then none else some output
        terminal := terminalOutput cfg.quiet cfg.quietLines output }

/-- Go writeToFile, as the evolution of the file content on a successful
write: append mode appends the bytes to the prior content (none meaning the
file did not exist), overwrite mode truncates and leaves only the new bytes. -/
def writeToFile (prior : Option Str) (content : Str) (appendMode : Bool) : Str :=
  if appendMode then prior.getD [] ++ content else content

/-- Go detectClipboardTool: probe the executable search path (modelled by the
predicate onPath) for wl-copy, then xclip, then xsel, first match wins,
returning the tool and its fixed argument vector. -/
def detectClipboardTool (onPath : String → Bool) : Option (String × List String) :=
  if onPath "wl-copy" then some ("wl-copy", [])
  else if onPath "xclip" then some ("xclip", ["-selection", "clipboard"])
  else if onPath "xsel" then some ("xsel", ["--clipboard", "--input"])
  else none

/-- Go copyToClipboard on the success path of the helper invocation: detect a
tool and stream the content to it, or fail with the error naming all three
candidate tools when none is on the path. -/
def copyToClipboard (onPath : String → Bool) (content : Str) :
    Except String (String × List String × Str) :=
  match detectClipboardTool onPath with
  | none => Except.error "no clipboard tool found (tried: wl-copy, xclip, xsel)"
  | some (tool, targs) => Except.ok (tool, targs, content)

/-- Spec-side relation for C4: t is obtained from g by interspersing escape
sequences of the form ESC, left bracket, a run of [0-9;], one ASCII letter. -/
inductive Interspersed : Str → Str → Prop where
  | nil : Interspersed [] []
  | chr (c : Char) {t g : Str} : Interspersed t g → Interspersed (c :: t) (c :: g)
  | esc {body : Str} {l : Char} {t g : Str} :
      (∀ x ∈ body, isDigitSemi x = true) → isAsciiLetter l = true →
      Interspersed t g → Interspersed ('\x1b' :: '[' :: (body ++ l :: t)) g

theorem splitNl_ne_nil (s : Str) : splitNl s ≠ [] := by
  cases s with
  | nil => simp [splitNl]
  | cons c cs =>
    simp only [splitNl]
    cases splitNl cs with
    | nil => simp [splitNlCons]
    | cons l ls =>
      by_cases hc : c = '\n' <;> simp [splitNlCons, hc]

theorem joinNl_cons_cons (a b : Str) (t : List Str) :
    joinNl (a :: b :: t) = a ++ '\n' :: joinNl (b :: t) := rfl

theorem joinNl_splitNl (s : Str) : joinNl (splitNl s) = s := by
  induction s with
  | nil => rfl
  | cons c cs ih =>
    simp only [splitNl]
    cases h : splitNl cs with
    | nil => exact absurd h (splitNl_ne_nil cs)
    | cons l ls =>
      rw [h] at ih
      simp only [splitNlCons]
      by_cases hc : c = '\n'
      · subst hc
        rw [if_pos rfl, joinNl_cons_cons, ih]
        rfl
      · rw [if_neg hc]
        cases ls with
        | nil =>
          simp only [joinNl] at ih ⊢
          rw [ih]
        | cons l2 ls2 =>
          rw [joinNl_cons_cons]
          rw [joinNl_cons_cons] at ih
          rw [List.cons_append, ih]

/-- C3: head/tail filtering.  For every string and every head count H and tail
count T, applyLineFilters keeps the first H lines of the newline-split line
sequence when 0 < H < length, then the last T lines of the possibly
head-filtered sequence when 0 < T < its length, rejoining with newline; a
count of zero (or negative) or at least the current line count leaves that
stage a no-op — exactly manual slicing of the first H then last T elements. -/
theorem line_filter_slicing (s : Str) (H T : Int) :
    applyLineFilters s H T = joinNl (tailSlice T (headSlice H (splitNl s))) := by
  unfold applyLineFilters headSlice tailSlice
  by_cases h : H ≤ 0 ∧ T ≤ 0
  · rw [if_pos h]
    have h1 : ¬(0 < H ∧ H < ((splitNl s).length : Int)) := by
      rintro ⟨h2, _⟩; omega
    rw [if_neg h1]
    have h3 : ¬(0 < T ∧ T < ((splitNl s).length : Int)) := by
      rintro ⟨h4, _⟩; omega
    rw [if_neg h3, joinNl_splitNl]
  · rw [if_neg h]

/-- C6: file round-trip.  Writing Record1 then Record2 with writeToFile in
overwrite mode leaves the file containing exactly Record2, whatever was there
before; writing them in append mode starting from a nonexistent file leaves
Record1 immediately followed by Record2, header and all. -/
theorem file_write_roundtrip (prior : Option Str) (r1 r2 : Str) :
    writeToFile (some (writeToFile prior r1 false)) r2 false = r2 ∧
    writeToFile (some (writeToFile none r1 true)) r2 true = r1 ++ r2 := by
  simp [writeToFile]

theorem dropWhile_self_idem (p : Char → Bool) (l : Str) :
    List.dropWhile p (List.dropWhile p l) = List.dropWhile p l := by
  induction l with
  | nil => rfl
  | cons a l ih =>
    by_cases h : p a = true
    · simp [List.dropWhile_cons, h, ih]
    · simp [List.dropWhile_cons, h]

theorem dropWhile_self_of_extends (p : Char → Bool) (t v : Str)
    (hfix : List.dropWhile p (t ++ v) = t ++ v) : List.dropWhile p t = t := by
  cases t with
  | nil => rfl
  | cons c t2 =>
    by_cases h : p c = true
    · exfalso
      rw [List.cons_append, List.dropWhile_cons, if_pos h] at hfix
      have hsuf : List.dropWhile p (t2 ++ v) <:+ (t2 ++ v) :=
        List.dropWhile_suffix p
      have hle := hsuf.length_le
      rw [hfix] at hle
      simp at hle
    · simp [List.dropWhile_cons, h]

theorem dropWhile_all_append (p : Char → Bool) (body : Str) (l : Char) (r : Str)
    (hb : ∀ x ∈ body, p x = true) (hl : p l = false) :
    List.dropWhile p (body ++ l :: r) = l :: r := by
  induction body with
  | nil => simp [List.dropWhile_cons, hl]
  | cons d body ih =>
    have hd : p d = true := hb d (by simp)
    rw [List.cons_append, List.dropWhile_cons, if_pos hd]
    exact ih (fun x hx => hb x (by simp [hx]))

theorem digitSemi_ne_esc {c : Char} (h : isDigitSemi c = true) : c ≠ '\x1b' := by
  intro he
  subst he
  exact absurd h (by decide)

theorem letter_ne_esc {c : Char} (h : isAsciiLetter c = true) : c ≠ '\x1b' := by
  intro he
  subst he
  exact absurd h (by decide)

theorem letter_not_digitSemi {c : Char} (h : isAsciiLetter c = true) :
    isDigitSemi c = false := by
  simp only [isAsciiLetter, Bool.or_eq_true, Bool.and_eq_true, decide_eq_true_eq] at h
  have h2 : ¬ isDigitSemi c = true := by
    simp only [isDigitSemi, Bool.or_eq_true, Bool.and_eq_true, decide_eq_true_eq]
    omega
  simpa using h2

theorem interspersed_cons_inv {c : Char} {t g : Str} (hc : c ≠ '\x1b')
    (h : Interspersed (c :: t) g) : ∃ g2, g = c :: g2 ∧ Interspersed t g2 := by
  cases h with
  | chr _ ht => exact ⟨_, rfl, ht⟩
  | esc hb hl ht => exact absurd rfl hc

theorem interspersed_run_inv {l : Char} {r : Str} :
    ∀ (body : Str) {g : Str}, (∀ x ∈ body, isDigitSemi x = true) →
    isAsciiLetter l = true → Interspersed (body ++ l :: r) g →
    ∃ r2, g = body ++ l :: r2 ∧ Interspersed r r2 := by
  intro body
  induction body with
  | nil =>
    intro g _ hl h
    obtain ⟨g2, rfl, ht⟩ := interspersed_cons_inv (letter_ne_esc hl) (by simpa using h)
    exact ⟨g2, rfl, ht⟩
  | cons d body ih =>
    intro g hb hl h
    have hd := hb d (by simp)
    obtain ⟨g2, rfl, ht⟩ := interspersed_cons_inv (digitSemi_ne_esc hd) (by simpa using h)
    obtain ⟨r2, rfl, hr⟩ := ih (fun x hx => hb x (by simp [hx])) hl ht
    exact ⟨r2, by simp, hr⟩

theorem matchAnsiTail_some_elim {cs rest : Str} (h : matchAnsiTail cs = some rest) :
    ∃ body l, cs = '[' :: (body ++ l :: rest) ∧ (∀ x ∈ body, isDigitSemi x = true) ∧
      isAsciiLetter l = true := by
  unfold matchAnsiTail at h
  split at h
  case h_2 => exact absurd h (by simp)
  case h_1 a r1 =>
    split at h
    case isFalse => exact absurd h (by simp)
    case isTrue ha =>
      subst ha
      split at h
      case h_2 => exact absurd h (by simp)
      case h_1 l r2 hd =>
        split at h
        case isFalse => exact absurd h (by simp)
        case isTrue hl =>
          cases h
          refine ⟨r1.takeWhile isDigitSemi, l, ?_, ?_, hl⟩
          · have h3 : r1.takeWhile isDigitSemi ++ l :: rest = r1 := by
              rw [← hd]
              exact List.takeWhile_append_dropWhile isDigitSemi r1
            rw [h3]
          · exact fun x hx => List.mem_takeWhile_imp hx

theorem matchAnsiTail_build (body : Str) (l : Char) (r : Str)
    (hb : ∀ x ∈ body, isDigitSemi x = true) (hl : isAsciiLetter l = true) :
    matchAnsiTail ('[' :: (body ++ l :: r)) = some r := by
  have hd := dropWhile_all_append isDigitSemi body l r hb (letter_not_digitSemi hl)
  simp [matchAnsiTail, hd, hl]

theorem matchAnsiTail_interspersed {t g r : Str} (hI : Interspersed t g)
    (h : matchAnsiTail t = some r) : ∃ r2, matchAnsiTail g = some r2 := by
  obtain ⟨body, l, rfl, hb, hl⟩ := matchAnsiTail_some_elim h
  obtain ⟨g2, rfl, hI2⟩ := interspersed_cons_inv (by decide) hI
  obtain ⟨r2, rfl, _⟩ := interspersed_run_inv body hb hl hI2
  exact ⟨r2, matchAnsiTail_build body l r2 hb hl⟩

theorem stripANSI_nil : stripANSI [] = [] := by
  simp [stripANSI]

theorem stripANSI_cons_ne {c : Char} (cs : Str) (hc : ¬ c = '\x1b') :
    stripANSI (c :: cs) = c :: stripANSI cs := by
  rw [stripANSI]
  simp [hc]

theorem stripANSI_esc_some {cs rest : Str} (h : matchAnsiTail cs = some rest) :
    stripANSI ('\x1b' :: cs) = stripANSI rest := by
  rw [stripANSI]
  split
  case isFalse hne => exact absurd rfl hne
  case isTrue =>
    split
    case h_1 r heq =>
      rw [heq] at h
      cases h
      rfl
    case h_2 heq =>
      rw [heq] at h
      cases h

theorem stripANSI_esc_none {cs : Str} (h : matchAnsiTail cs = none) :
    stripANSI ('\x1b' :: cs) = '\x1b' :: stripANSI cs := by
  rw [stripANSI]
  split
  case isFalse hne => exact absurd rfl hne
  case isTrue =>
    split
    case h_1 r heq =>
      rw [heq] at h
      cases h
    case h_2 heq => rfl

/-- C9: trim is idempotent.  Applying the whole-text leading/trailing
whitespace trim of strings.TrimSpace to an already-trimmed string is a no-op. -/
theorem trim_idempotent (s : Str) : trimSpace (trimSpace s) = trimSpace s := by
  have hAfix : List.dropWhile isGoSpace (List.dropWhile isGoSpace s) =
      List.dropWhile isGoSpace s := dropWhile_self_idem isGoSpace s
  have hXfix : List.dropWhile isGoSpace
      (List.dropWhile isGoSpace (List.dropWhile isGoSpace s).reverse) =
      List.dropWhile isGoSpace (List.dropWhile isGoSpace s).reverse :=
    dropWhile_self_idem isGoSpace (List.dropWhile isGoSpace s).reverse
  have hsuf : List.dropWhile isGoSpace (List.dropWhile isGoSpace s).reverse <:+
      (List.dropWhile isGoSpace s).reverse := List.dropWhile_suffix isGoSpace
  obtain ⟨u, hu⟩ := hsuf
  have hA2 : List.dropWhile isGoSpace s =
      (List.dropWhile isGoSpace (List.dropWhile isGoSpace s).reverse).reverse ++
        u.reverse := by
    have h2 := congrArg List.reverse hu
    simpa [List.reverse_append] using h2.symm
  have hTfix : List.dropWhile isGoSpace
      (List.dropWhile isGoSpace (List.dropWhile isGoSpace s).reverse).reverse =
      (List.dropWhile isGoSpace (List.dropWhile isGoSpace s).reverse).reverse := by
    apply dropWhile_self_of_extends isGoSpace _ u.reverse
    rw [← hA2]
    exact hAfix
  show trimSpace ((List.dropWhile isGoSpace
      (List.dropWhile isGoSpace s).reverse).reverse) = _
  unfold trimSpace
  rw [hTfix, List.reverse_reverse, hXfix]

/-- C4: ANSI stripping.  For every ANSI-escape-free ground-truth string g and
every string t obtained from g by interspersing escape sequences of the form
ESC, left bracket, a run of digits/semicolons, one ASCII letter, stripANSI t
recovers exactly g; and when raw mode is requested the strip stage is skipped
entirely, so the captured text passes through unchanged. -/
theorem ansi_strip_correct :
    (∀ t g : Str, Interspersed t g → ansiFree g = true → stripANSI t = g) ∧
    (∀ s : Str, stripStage true s = s) := by
  constructor
  · intro t g hI
    induction hI with
    | nil => intro _; exact stripANSI_nil
    | chr c ht ih =>
      rename_i t2 g2
      intro hg
      simp only [ansiFree, Bool.and_eq_true] at hg
      obtain ⟨hg1, hg2⟩ := hg
      by_cases hc : c = '\x1b'
      · subst hc
        rw [if_pos rfl, Option.isNone_iff_eq_none] at hg1
        have hnone : matchAnsiTail t2 = none := by
          cases hmt : matchAnsiTail t2 with
          | none => rfl
          | some r =>
            obtain ⟨r2, hr2⟩ := matchAnsiTail_interspersed ht hmt
            rw [hg1] at hr2
            cases hr2
        rw [stripANSI_esc_none hnone, ih hg2]
      · rw [stripANSI_cons_ne _ hc, ih hg2]
    | esc hb hl ht ih =>
      intro hg
      rw [stripANSI_esc_some (matchAnsiTail_build _ _ _ hb hl)]
      exact ih hg
  · intro s
    simp [stripStage]

theorem ansi_strip_correct_witness :
    stripANSI ('a' :: '\x1b' :: '[' :: '3' :: '1' :: 'm' :: 'b' :: []) =
      ('a' :: 'b' :: []) := by
  have h2 : Interspersed ('b' :: []) ('b' :: []) :=
    Interspersed.chr 'b' Interspersed.nil
  have h3 : Interspersed ('\x1b' :: '[' :: (('3' :: '1' :: []) ++ 'm' :: 'b' :: []))
      ('b' :: []) := Interspersed.esc (by decide) (by decide) h2
  have h4 : Interspersed ('a' :: '\x1b' :: '[' :: '3' :: '1' :: 'm' :: 'b' :: [])
      ('a' :: 'b' :: []) := Interspersed.chr 'a' h3
  exact ansi_strip_correct.1 _ _ h4 (by decide)

theorem runMain_success {cfg : Config} {args : List String} {child : ChildBehavior}
    {ts captured : Str} (ha : args ≠ [])
    (hE : executeCommand cfg.stderr child = (captured, none)) :
    runMain cfg args child ts =
      { exitCode := 0
        fileWritten :=
          if cfg.noTemp then none
          else some ((if cfg.file = "" then "/tmp/cb.txt" else cfg.file),
            recordHeader ts (cmdString args) ++ transformChain cfg captured ++ ['\n'])
        clipboardPublished :=
          if cfg.noClipboard then none else some (transformChain cfg captured)
        terminal :=
          terminalOutput cfg.quiet cfg.quietLines (transformChain cfg captured) } := by
  unfold runMain
  rw [if_neg ha, hE]

theorem runMain_failure {cfg : Config} {args : List String} {child : ChildBehavior}
    {ts captured : Str} {e : ExecError} (ha : args ≠ [])
    (hE : executeCommand cfg.stderr child = (captured, some e)) :
    runMain cfg args child ts =
      { exitCode := 1, fileWritten := none, clipboardPublished := none,
        terminal := [] } := by
  unfold runMain
  rw [if_neg ha, hE]

/-- C1 counterexample: the claim says an unspawnable executable yields an
error in every mode, but with capture-stderr mode on, executeCommand swallows
the spawn error and returns no error, and the orchestrator then proceeds to
the file and clipboard steps and exits zero. -/
theorem exec_error_counterexample :
    (executeCommand true ⟨[], [], some RunErr.spawnError⟩).2 = none ∧
    (runMain { baseConfig with stderr := true } ["ghost-cmd"]
        ⟨[], [], some RunErr.spawnError⟩ []).exitCode = 0 ∧
    (runMain { baseConfig with stderr := true } ["ghost-cmd"]
        ⟨[], [], some RunErr.spawnError⟩ []).fileWritten ≠ none := by
  have hE : executeCommand
      ({ baseConfig with stderr := true } : Config).stderr
      ⟨[], [], some RunErr.spawnError⟩ = ([], none) := rfl
  have h := @runMain_success { baseConfig with stderr := true } ["ghost-cmd"]
    ⟨[], [], some RunErr.spawnError⟩ [] [] (by simp) hE
  refine ⟨rfl, ?_, ?_⟩
  · rw [h]
  · rw [h]
    simp [baseConfig]

/-- C1 (amended): in capture-stderr mode executeCommand never returns an
error — a non-zero child exit and even an unspawnable executable both yield
the merged captured output with no error; with capture-stderr off, an
unspawnable executable yields an error, causing the orchestrator to exit
non-zero before any file or clipboard step. -/
theorem exec_error_policy (child : ChildBehavior) (cfg : Config) (ts : Str)
    (args : List String) :
    ((executeCommand true child).2 = none) ∧
    (cfg.stderr = false → child.runError = some RunErr.spawnError → args ≠ [] →
      (∃ e, (executeCommand cfg.stderr child).2 = some e) ∧
      runMain cfg args child ts =
        { exitCode := 1, fileWritten := none, clipboardPublished := none,
          terminal := [] }) := by
  constructor
  · unfold executeCommand
    cases child.runError <;> simp
  · intro hs hr ha
    have he : executeCommand cfg.stderr child =
        (child.stdoutData,
         some (if child.stderrData = [] then ExecError.bare RunErr.spawnError
               else ExecError.withStderr RunErr.spawnError child.stderrData)) := by
      unfold executeCommand
      rw [hr, hs]
      by_cases hd : child.stderrData = [] <;> simp [hd]
    exact ⟨⟨_, by rw [he]⟩, runMain_failure ha he⟩

theorem exec_error_policy_witness :
    (executeCommand true ⟨[], ['x'], some (RunErr.exitNonZero 1)⟩).2 = none ∧
    runMain baseConfig ["c"] ⟨[], [], some RunErr.spawnError⟩ [] =
      { exitCode := 1, fileWritten := none, clipboardPublished := none,
        terminal := [] } := by
  constructor
  · exact (exec_error_policy ⟨[], ['x'], some (RunErr.exitNonZero 1)⟩ baseConfig
      [] ["c"]).1
  · exact ((exec_error_policy ⟨[], [], some RunErr.spawnError⟩ baseConfig
      [] ["c"]).2 rfl rfl (by simp)).2

/-- C2 counterexample: the claim says the printed text is followed by a
trailing newline exactly when it lacks one, so for a non-quiet run whose
transformed text is empty it predicts that a bare newline is printed; the
program prints nothing in that case. -/
theorem terminal_output_counterexample :
    terminalOutput false 0 [] = [] ∧ terminalOutput false 0 [] ≠ ['\n'] := by
  decide

/-- C2 (amended): terminal output decision.  If fully quiet (quiet flag set
with no line value) nothing is printed and the run exits 0; otherwise the
program prints the full transformed text, or its display-limited prefix when
a positive quiet line count was given, followed by a trailing newline exactly
when that text is nonempty and lacks one — an empty text prints nothing. -/
theorem terminal_output_decision (cfg : Config) (child : ChildBehavior) (ts : Str)
    (args : List String) (q : Bool) (ql : Int) (out : Str) :
    (q = true ∧ ql = 0 → terminalOutput q ql out = []) ∧
    (¬(q = true ∧ ql = 0) →
      terminalOutput q ql out =
        (if (if 0 < ql then limitLines out ql else out) = [] then []
         else if (if 0 < ql then limitLines out ql else out).getLast? = some '\n' then
           (if 0 < ql then limitLines out ql else out)
         else (if 0 < ql then limitLines out ql else out) ++ ['\n'])) ∧
    (cfg.quiet = true → cfg.quietLines = 0 → args ≠ [] →
      (executeCommand cfg.stderr child).2 = none →
      (runMain cfg args child ts).terminal = [] ∧
      (runMain cfg args child ts).exitCode = 0) := by
  refine ⟨?_, ?_, ?_⟩
  · intro h
    unfold terminalOutput
    rw [if_pos h]
  · intro h
    unfold terminalOutput
    rw [if_neg h]
  · intro h1 h2 h3 h4
    rcases hE2 : executeCommand cfg.stderr child with ⟨cap, err⟩
    rw [hE2] at h4
    simp only at h4
    subst h4
    rw [runMain_success h3 hE2]
    constructor
    · show terminalOutput cfg.quiet cfg.quietLines _ = []
      unfold terminalOutput
      rw [if_pos ⟨h1, h2⟩]
    · rfl

theorem terminal_output_decision_witness :
    terminalOutput true 0 ['a'] = [] ∧ terminalOutput false 0 ['a'] = ['a', '\n'] := by
  constructor
  · exact (terminal_output_decision baseConfig ⟨[], [], none⟩ [] [] true 0 ['a']).1
      ⟨rfl, rfl⟩
  · have h := (terminal_output_decision baseConfig ⟨[], [], none⟩ [] [] false 0
      ['a']).2.1 (by simp)
    rw [h]
    decide

/-- C7: non-merged child failure.  With capture-stderr mode off and the child
exiting non-zero, executeCommand still returns the captured stdout text,
together with an error that carries the underlying wait error and, whenever
the child wrote anything to stderr, also that captured stderr text. -/
theorem nonmerged_failure_reporting (child : ChildBehavior) (code : Nat)
    (h : child.runError = some (RunErr.exitNonZero code)) :
    executeCommand false child =
      (child.stdoutData,
       some (if child.stderrData = [] then ExecError.bare (RunErr.exitNonZero code)
             else ExecError.withStderr (RunErr.exitNonZero code) child.stderrData)) := by
  unfold executeCommand
  rw [h]
  by_cases hd : child.stderrData = [] <;> simp [hd]

theorem nonmerged_failure_reporting_witness :
    executeCommand false ⟨['o'], ['e'], some (RunErr.exitNonZero 2)⟩ =
      (['o'], some (ExecError.withStderr (RunErr.exitNonZero 2) ['e'])) := by
  have h := nonmerged_failure_reporting ⟨['o'], ['e'], some (RunErr.exitNonZero 2)⟩
    2 rfl
  rw [h]
  decide

/-- C8: clipboard tool discovery probes the executable search path in fixed
priority order — wl-copy with no extra arguments, then xclip with the
persistent clipboard-selection arguments, then xsel with the clipboard/input
arguments — first match wins; when none of the three is on the path,
copyToClipboard fails with an error naming all three candidate tools, and
otherwise the discovered tool receives the content on its standard input. -/
theorem clipboard_tool_discovery (onPath : String → Bool) (content : Str) :
    (onPath "wl-copy" = true → detectClipboardTool onPath = some ("wl-copy", [])) ∧
    (onPath "wl-copy" = false → onPath "xclip" = true →
      detectClipboardTool onPath = some ("xclip", ["-selection", "clipboard"])) ∧
    (onPath "wl-copy" = false → onPath "xclip" = false → onPath "xsel" = true →
      detectClipboardTool onPath = some ("xsel", ["--clipboard", "--input"])) ∧
    (onPath "wl-copy" = false → onPath "xclip" = false → onPath "xsel" = false →
      copyToClipboard onPath content =
        Except.error "no clipboard tool found (tried: wl-copy, xclip, xsel)") ∧
    (∀ tool targs, detectClipboardTool onPath = some (tool, targs) →
      copyToClipboard onPath content = Except.ok (tool, targs, content)) := by
  refine ⟨?_, ?_, ?_, ?_, ?_⟩
  · intro h1
    simp [detectClipboardTool, h1]
  · intro h1 h2
    simp [detectClipboardTool, h1, h2]
  · intro h1 h2 h3
    simp [detectClipboardTool, h1, h2, h3]
  · intro h1 h2 h3
    simp [copyToClipboard, detectClipboardTool, h1, h2, h3]
  · intro tool targs h
    simp [copyToClipboard, h]

theorem clipboard_tool_discovery_witness :
    copyToClipboard (fun _ => false) [] =
      Except.error "no clipboard tool found (tried: wl-copy, xclip, xsel)" ∧
    detectClipboardTool (fun s => s == "xclip") =
      some ("xclip", ["-selection", "clipboard"]) := by
  constructor
  · exact (clipboard_tool_discovery (fun _ => false) []).2.2.2.1 rfl rfl rfl
  · exact (clipboard_tool_discovery (fun s => s == "xclip") []).2.1 rfl rfl

/-- C5: display limiting is print-only.  For every configuration and captured
text, the text embedded in the persisted Record and the text streamed to the
clipboard tool are the same string — the output of the strip/trim/head-tail
chain — and changing the quiet display settings changes neither of them;
limitLines affects only what is echoed to the terminal. -/
theorem display_limit_print_only (cfg : Config) (child : ChildBehavior) (ts : Str)
    (args : List String) (q2 : Bool) (ql2 : Int)
    (ha : args ≠ []) (hE : (executeCommand cfg.stderr child).2 = none) :
    ((runMain cfg args child ts).clipboardPublished =
      if cfg.noClipboard then none
      else some (transformChain cfg (executeCommand cfg.stderr child).1)) ∧
    ((runMain cfg args child ts).fileWritten =
      if cfg.noTemp then none
      else some ((if cfg.file = "" then "/tmp/cb.txt" else cfg.file),
        recordHeader ts (cmdString args) ++
          transformChain cfg (executeCommand cfg.stderr child).1 ++ ['\n'])) ∧
    (runMain { cfg with quiet := q2, quietLines := ql2 } args child
        ts).clipboardPublished = (runMain cfg args child ts).clipboardPublished ∧
    (runMain { cfg with quiet := q2, quietLines := ql2 } args child
        ts).fileWritten = (runMain cfg args child ts).fileWritten := by
  rcases hE2 : executeCommand cfg.stderr child with ⟨cap, err⟩
  rw [hE2] at hE
  simp only at hE
  subst hE
  have hE3 : executeCommand ({ cfg with quiet := q2, quietLines := ql2 }).stderr
      child = (cap, none) := hE2
  rw [runMain_success ha hE2, runMain_success ha hE3]
  exact ⟨rfl, rfl, rfl, rfl⟩

theorem display_limit_print_only_witness :
    (runMain { baseConfig with quietLines := 1, quiet := true, raw := true } ["echo"]
        ⟨['a', '\n', 'b'], [], none⟩ []).clipboardPublished =
      some ['a', '\n', 'b'] ∧
    (runMain { baseConfig with quietLines := 1, quiet := true, raw := true } ["echo"]
        ⟨['a', '\n', 'b'], [], none⟩ []).terminal = ['a', '\n'] := by
  constructor
  · have h := (display_limit_print_only
      { baseConfig with quietLines := 1, quiet := true, raw := true }
      ⟨['a', '\n', 'b'], [], none⟩ [] ["echo"] false 0 (by simp) rfl).1
    rw [h]
    decide
  · have hE : executeCommand
        ({ baseConfig with quietLines := 1, quiet := true, raw := true } :
          Config).stderr ⟨['a', '\n', 'b'], [], none⟩ =
        (['a', '\n', 'b'], none) := rfl
    rw [runMain_success (by simp) hE]
    decide

/-- C10: every persisted Record ends with a newline — the bytes written in
one run are exactly header ++ transformed-text ++ newline — so appending a
further record places its header at the start of a fresh line. -/
theorem record_trailing_newline (cfg : Config) (args : List String)
    (child : ChildBehavior) (ts : Str) (path : String) (content next : Str)
    (h : (runMain cfg args child ts).fileWritten = some (path, content)) :
    content = recordHeader ts (cmdString args) ++
      transformChain cfg (executeCommand cfg.stderr child).1 ++ ['\n'] ∧
    content.getLast? = some '\n' ∧
    writeToFile (some content) next true = content ++ next := by
  have ha : args ≠ [] := by
    intro he
    rw [he] at h
    simp [runMain] at h
  rcases hE2 : executeCommand cfg.stderr child with ⟨cap, err⟩
  cases err with
  | some e =>
    rw [runMain_failure ha hE2] at h
    simp at h
  | none =>
    rw [runMain_success ha hE2] at h
    by_cases hT : cfg.noTemp
    · rw [if_pos hT] at h
      simp at h
    · rw [if_neg hT] at h
      simp only [Option.some.injEq, Prod.mk.injEq] at h
      obtain ⟨-, hc⟩ := h
      subst hc
      refine ⟨rfl, ?_, ?_⟩
      · exact List.getLast?_concat _
      · simp [writeToFile]

theorem record_trailing_newline_witness :
    (recordHeader [] (cmdString ["echo"]) ++ transformChain baseConfig ['h'] ++
      ['\n']).getLast? = some '\n' := by
  have hE : executeCommand baseConfig.stderr ⟨['h'], [], none⟩ =
      (['h'], none) := rfl
  have h := record_trailing_newline baseConfig ["echo"] ⟨['h'], [], none⟩ []
    "/tmp/cb.txt"
    (recordHeader [] (cmdString ["echo"]) ++ transformChain baseConfig ['h'] ++
      ['\n']) []
    (by rw [runMain_success (by simp) hE]; rfl)
  exact h.2.1
